import Mathlib

/-!
Verification of the naomi-util entity-to-DTO converter
(src/client/src/app/page.tsx) against its specification.

The whole pipeline is string processing, so we embed source text as
`List Char` and translate each function of the page module
(`parseEntity`, the field classifiers, `getValidatorDecorators`,
`extractEnumImports`, `genDocDto`, `genResponseDto`,
`toRelationResDtoType`) into an executable Lean definition.  JavaScript
regular expressions are unrolled into explicit scanning functions; the
greedy/backtracking behaviour of each concrete regex used by the code is
reproduced (maximal-munch runs, alternation order, first-match search).
JS `\s` is modelled by its ASCII portion, which is the only part the
inputs of this tool exercise.  Recursions that are not structural in the
source (the line scanner, which can jump over a multi-line column
metadata block, and the recursive type resolver) are given a fuel
parameter that the wrappers instantiate with a sufficient bound, keeping
every definition kernel-reducible.
-/

namespace EntityToDto

abbrev Str := List Char

/-- Left brace character, kept out of literals. -/
def lbrace : Char := Char.ofNat 123

/-- Right brace character, kept out of literals. -/
def rbrace : Char := Char.ofNat 125

/-- Single-quote character. -/
def sQuote : Char := Char.ofNat 39

/-- Double-quote character. -/
def dQuote : Char := Char.ofNat 34

/-- ASCII fragment of the JS `\s` character class. -/
def wsChar (c : Char) : Bool :=
  c == ' ' || c == '\t' || c == '\n' || c == '\r' || c == '\x0b' || c == '\x0c'

/-- JS `[A-Za-z_]`, the first character of an identifier. -/
def identStartChar (c : Char) : Bool :=
  (Nat.ble 97 c.toNat && Nat.ble c.toNat 122)
  || (Nat.ble 65 c.toNat && Nat.ble c.toNat 90)
  || c == '_'

/-- JS `\w` = `[A-Za-z0-9_]`. -/
def wordChar (c : Char) : Bool :=
  identStartChar c || (Nat.ble 48 c.toNat && Nat.ble c.toNat 57)

/-- JS `[a-z]`. -/
def lcAlpha (c : Char) : Bool :=
  Nat.ble 97 c.toNat && Nat.ble c.toNat 122

/-- Case folding for the one case-insensitive regex (`/.../i`). -/
def lcChar (c : Char) : Char :=
  if Nat.ble 65 c.toNat && Nat.ble c.toNat 90 then Char.ofNat (c.toNat + 32) else c

/-- The quote character class of the column-metadata regexes (single or
double quote). -/
def isQuoteChar (c : Char) : Bool := c == sQuote || c == dQuote

/-- Boolean prefix test on character lists (JS `startsWith`). -/
def pfxB : Str → Str → Bool
  | [], _ => true
  | _ :: _, [] => false
  | a :: as, b :: bs => a == b && pfxB as bs

/-- Boolean suffix test (JS `endsWith`). -/
def sfxB (p s : Str) : Bool := pfxB p.reverse s.reverse

/-- Strip a literal prefix, returning the remainder on success. -/
def stripPfx (p s : Str) : Option Str :=
  if pfxB p s then some (s.drop p.length) else none

/-- Case-insensitive prefix strip, for the `/i` regex; `p` is lowercase. -/
def stripPfxCI (p s : Str) : Option Str :=
  if (s.take p.length).map lcChar == p && Nat.ble p.length s.length then
    some (s.drop p.length)
  else none

/-- ASCII model of `String.prototype.trimStart`. -/
def trimL (s : Str) : Str := s.dropWhile wsChar

/-- ASCII model of `String.prototype.trimEnd`. -/
def trimR (s : Str) : Str := (s.reverse.dropWhile wsChar).reverse

/-- ASCII model of `String.prototype.trim`. -/
def trim (s : Str) : Str := trimR (trimL s)

/-- Number of occurrences of a character (the `match(/\(/g).length` counts). -/
def countChar (c : Char) (l : Str) : Nat := (l.filter (fun x => x == c)).length

/-- Does any suffix of `s` satisfy `p`?  This is how an unanchored JS regex
scans every start position, the end-of-string position included. -/
def anySuffix (p : Str → Bool) : Str → Bool
  | [] => p []
  | c :: rest => p (c :: rest) || anySuffix p rest

/-- Plain substring occurrence (JS `includes`, or an unanchored literal regex). -/
def containsSub (p s : Str) : Bool := anySuffix (fun r => pfxB p r) s

/-- Word boundary `\b` after a token: next character absent or not `\w`. -/
def boundAfter (s : Str) : Bool :=
  match s with
  | [] => true
  | c :: _ => !wordChar c

/-- Token occurrence followed by a word boundary (a `/lit\b/` regex). -/
def tokenAt (tok s : Str) : Bool :=
  match stripPfx tok s with
  | none => false
  | some r => boundAfter r

/-- Unanchored `/lit\b/` search. -/
def containsToken (tok s : Str) : Bool := anySuffix (tokenAt tok) s

/-- Word boundary before a position, given the preceding character. -/
def boundaryB : Option Char → Bool
  | none => true
  | some c => !wordChar c

/-- Scan for `/\blit\b/`, tracking the character before each position. -/
def cbbAux (tok : Str) : Option Char → Str → Bool
  | prev, [] => boundaryB prev && tokenAt tok []
  | prev, c :: rest => (boundaryB prev && tokenAt tok (c :: rest)) || cbbAux tok (some c) rest

/-- Unanchored `/\blit\b/` search (word boundary on both sides). -/
def containsBothBound (tok s : Str) : Bool := cbbAux tok none s

/-- Split on `'\n'` alone; `split(/\r?\n/)` is recovered by `splitLines`. -/
def splitNL : Str → List Str
  | [] => [[]]
  | c :: rest =>
    if c = '\n' then [] :: splitNL rest
    else
      match splitNL rest with
      | [] => [[c]]
      | l :: ls => (c :: l) :: ls

/-- Remove one trailing `'\r'` (the optional `\r` of the split pattern). -/
def dropTrailCR (l : Str) : Str :=
  if (match l.getLast? with | some c => c == '\r' | none => false) then l.dropLast else l

/-- Apply `g` to every element except the last (the last line of a split is
not followed by a separator, so its `\r` survives). -/
def mapButLast (g : Str → Str) : List Str → List Str
  | [] => []
  | [x] => [x]
  | x :: y :: rest => g x :: mapButLast g (y :: rest)

/-- Model of `source.split(/\r?\n/)`. -/
def splitLines (s : Str) : List Str := mapButLast dropTrailCR (splitNL s)

/-- One attempt of `/export\s+class\s+(\w+)/` anchored at the current
position; each `\s+`/`\w+` run is maximal, which coincides with the
backtracking semantics because no shorter run can satisfy the next literal. -/
def matchExportClassAt (s : Str) : Option Str :=
  match stripPfx (("export").data) s with
  | none => none
  | some s1 =>
    if (s1.takeWhile wsChar).length = 0 then none
    else
      match stripPfx (("class").data) (s1.dropWhile wsChar) with
      | none => none
      | some s3 =>
        if (s3.takeWhile wsChar).length = 0 then none
        else
          let w := (s3.dropWhile wsChar).takeWhile wordChar
          if w.length = 0 then none else some w

/-- Leftmost match of `/export\s+class\s+(\w+)/` (JS `String.match`),
returning the captured identifier. -/
def searchExportClass : Str → Option Str
  | [] => none
  | c :: rest =>
    match matchExportClassAt (c :: rest) with
    | some w => some w
    | none => searchExportClass rest

/-- Model of `str.replace(/suf$/, rep)`: replace one trailing occurrence. -/
def replaceSuffix (suf rep s : Str) : Str :=
  if sfxB suf s then s.take (s.length - suf.length) ++ rep else s

/-- One declared property of the source entity (`type Field`). -/
structure Field where
  name : Str
  tsType : Str
  optional : Bool
  decorators : List Str
  rawColumnMeta : Option Str
deriving DecidableEq, Repr

/-- Result of parsing one entity definition (`type ParsedEntity`). -/
structure ParsedEntity where
  className : Str
  baseName : Str
  fields : List Field
deriving DecidableEq, Repr

/-- The two boolean options of the request generator. -/
structure GenOpts where
  forceOptional : Bool
  stripAudit : Bool
deriving DecidableEq, Repr

/-- Tail of the property-declaration regex after the identifier and the
`:`: `\s*([^;]+);`.  `k` is the index of the first `;`; greedy `\s*`
backs off just enough to leave `[^;]+` nonempty, so it matches
`min p (k-1)` characters where `p` is the whitespace-run length.
Returns name, raw captured type text, and consumed length. -/
def corePost (nm : Str) (q : Nat) (ac : Str) : Option (Str × Str × Nat) :=
  match ac.findIdx? (fun c => c == ';') with
  | none => none
  | some k =>
    if k = 0 then none
    else
      let p := (ac.takeWhile wsChar).length
      let j := min p (k - 1)
      some (nm, (ac.drop j).take (k - j), nm.length + q + k + 1)

/-- The pattern `([A-Za-z_][A-Za-z0-9_]*)\??:\s*([^;]+);` anchored at the start of `s`. -/
def matchPropCore (s : Str) : Option (Str × Str × Nat) :=
  match s with
  | [] => none
  | c :: _ =>
    if identStartChar c then
      let nm := s.takeWhile wordChar
      match s.drop nm.length with
      | '?' :: ':' :: r2 => corePost nm 2 r2
      | ':' :: r2 => corePost nm 1 r2
      | _ => none
    else none

/-- One alternative of the optional access-modifier group: the literal
keyword, one or more whitespace characters, then the core pattern.
Returns name, raw type, and the full matched text `propMatch[0]`. -/
def tryMod (mods line : Str) : Option (Str × Str × Str) :=
  match stripPfx mods line with
  | none => none
  | some r1 =>
    let w := (r1.takeWhile wsChar).length
    if w = 0 then none
    else
      match matchPropCore (r1.drop w) with
      | none => none
      | some (nm, t, c) => some (nm, t, line.take (mods.length + w + c))

/-- The property-declaration regex
`/^(?:public\s+|private\s+|readonly\s+)?([A-Za-z_][A-Za-z0-9_]*)\??:\s*([^;]+);/`
with its alternation tried in order and the empty alternative last. -/
def propMatch (line : Str) : Option (Str × Str × Str) :=
  match tryMod (("public").data) line with
  | some r => some r
  | none =>
    match tryMod (("private").data) line with
    | some r => some r
    | none =>
      match tryMod (("readonly").data) line with
      | some r => some r
      | none =>
        match matchPropCore line with
        | some (nm, t, c) => some (nm, t, line.take c)
        | none => none

/-- Model of `/\?$/.test(s)`. -/
def endsWithQ (s : Str) : Bool :=
  match s.getLast? with
  | some c => c == '?'
  | none => false

/-- The regex `/nullable\s*:\s*true/` anchored at the current position. -/
def nullableAt (s : Str) : Bool :=
  match stripPfx (("nullable").data) s with
  | none => false
  | some r =>
    match r.dropWhile wsChar with
    | ':' :: r2 => pfxB (("true").data) (r2.dropWhile wsChar)
    | _ => false

/-- Unanchored `/nullable\s*:\s*true/` search. -/
def nullableHit (s : Str) : Bool := anySuffix nullableAt s

/-- Is the (trimmed) line a `@Column(` decorator whose text contains `{`? -/
def colMetaStart (t : Str) : Bool :=
  pfxB (("@Column(").data) t && t.any (fun c => c == lbrace)

/-- The balanced-parenthesis scan of the column-metadata block: visit the
remaining raw lines accumulating parenthesis depth; on the line where the
depth drops to zero or below, return the joined text and the lines after
it; if the depth never closes, return the text to end-of-source and no
continuation (the caller then resumes at the line after the `@Column`). -/
def collectMeta : List Str → Int → Str × Option (List Str)
  | [], _ => ([], none)
  | l :: rest, depth =>
    let d := depth + (countChar '(' l : Int) - (countChar ')' l : Int)
    if d ≤ 0 then (l, some rest)
    else
      match rest with
      | [] => (l, none)
      | r1 :: rs =>
        let pr := collectMeta (r1 :: rs) d
        (l ++ '\n' :: pr.1, pr.2)

/-- The line scanner of `parseEntity`: decorator lines are buffered (and a
brace-carrying `@Column(` line triggers the metadata scan, jumping past the
consumed lines); a property-declaration line emits a `Field` and clears both
buffers; every other line is skipped.  `fuel` bounds the recursion and is
instantiated with the line count, which the jump only ever shrinks. -/
def parseLoop : Nat → List Str → List Str → Option Str → List Field
  | 0, _, _, _ => []
  | _ + 1, [], _, _ => []
  | fuel + 1, l :: rest, buf, pend =>
    let line := trim l
    if pfxB (("@").data) line then
      let buf2 := buf ++ [line]
      if colMetaStart line then
        let d1 : Int := (countChar '(' l : Int) - (countChar ')' l : Int)
        if d1 ≤ 0 then parseLoop fuel rest buf2 (some l)
        else
          match rest with
          | [] => parseLoop fuel [] buf2 (some l)
          | r1 :: rs =>
            match collectMeta (r1 :: rs) d1 with
            | (m, some rest2) => parseLoop fuel rest2 buf2 (some (l ++ '\n' :: m))
            | (m, none) => parseLoop fuel rest buf2 (some (l ++ '\n' :: m))
      else parseLoop fuel rest buf2 pend
    else
      match propMatch line with
      | some (nm, rawT, m0) =>
        { name := nm
          tsType := trim rawT
          optional := endsWithQ m0
            || nullableHit ((pend.getD []) ++ '\n' :: List.intercalate ['\n'] buf)
          decorators := buf
          rawColumnMeta := pend } :: parseLoop fuel rest [] none
      | none => parseLoop fuel rest buf pend

/-- Model of `parseEntity(source)`. -/
def parseEntity (source : Str) : Option ParsedEntity :=
  match searchExportClass source with
  | none => none
  | some className =>
    let ls := splitLines source
    some { className := className
           baseName := replaceSuffix (("Entity").data) [] className
           fields := parseLoop ls.length ls [] none }

/-- Decorator names of `isRelation`. -/
def relNames : List Str :=
  [("@OneToOne").data, ("@OneToMany").data, ("@ManyToOne").data,
   ("@ManyToMany").data, ("@JoinColumn").data, ("@JoinTable").data]

/-- Model of `isRelation(field)`. -/
def isRelation (f : Field) : Bool :=
  f.decorators.any (fun d => relNames.any (fun n => containsToken n d))

/-- Model of `isGeneratedPrimary(field)`. -/
def isGeneratedPrimary (f : Field) : Bool :=
  f.decorators.any (fun d => containsToken (("@PrimaryGeneratedColumn").data) d)

/-- Decorator names of `isAudit`. -/
def auditNames : List Str :=
  [("@CreateDateColumn").data, ("@UpdateDateColumn").data, ("@DeleteDateColumn").data]

/-- Model of `isAudit(field)`. -/
def isAudit (f : Field) : Bool :=
  f.decorators.any (fun d => auditNames.any (fun n => containsToken n d))

/-- The case-insensitive tinyint type-attribute pattern (type, colon, a quote, tinyint, a quote) anchored at the current position. -/
def tinyAt (s : Str) : Bool :=
  match stripPfxCI (("type").data) s with
  | none => false
  | some r =>
    match r.dropWhile wsChar with
    | ':' :: r2 =>
      match r2.dropWhile wsChar with
      | q :: r3 =>
        isQuoteChar q &&
          (match stripPfxCI (("tinyint").data) r3 with
           | some r4 =>
             (match r4 with
              | q2 :: _ => isQuoteChar q2
              | [] => false)
           | none => false)
      | [] => false
    | _ => false

/-- Unanchored search for the case-insensitive tinyint type-attribute pattern. -/
def tinyTypeAttr (s : Str) : Bool := anySuffix tinyAt s

/-- The regex width, colon, the digit one, then a word boundary, anchored at the current position. -/
def widthAt (s : Str) : Bool :=
  match stripPfx (("width").data) s with
  | none => false
  | some r =>
    match r.dropWhile wsChar with
    | ':' :: r2 =>
      match r2.dropWhile wsChar with
      | '1' :: r3 => boundAfter r3
      | _ => false
    | _ => false

/-- Unanchored `/width\s*:\s*1\b/` search. -/
def widthOneAttr (s : Str) : Bool := anySuffix widthAt s

/-- Model of `isTinyIntBoolean(field)`. -/
def isTinyIntBoolean (f : Field) : Bool :=
  let meta := f.rawColumnMeta.getD []
  containsSub (("@Column(").data) meta && tinyTypeAttr meta && widthOneAttr meta

/-- A run of lowercase letters leading into the literal `date` (the `[a-z]*date` tail). -/
def lcThenDate : Str → Bool
  | [] => false
  | c :: rest => pfxB (("date").data) (c :: rest) || (lcAlpha c && lcThenDate rest)

/-- The date type-attribute pattern (the literal type, colon, a quote, then
lowercase letters leading into the literal date) anchored at the current
position; each greedy whitespace run is maximal, which coincides with the
backtracking semantics because a shorter run would place the next literal on
a whitespace character. -/
def dateAt (s : Str) : Bool :=
  match stripPfx (("type").data) s with
  | none => false
  | some r =>
    match r.dropWhile wsChar with
    | ':' :: r2 =>
      match r2.dropWhile wsChar with
      | q :: r3 => isQuoteChar q && lcThenDate r3
      | [] => false
    | _ => false

/-- Unanchored search for the date type-attribute pattern. -/
def dateAttr (s : Str) : Bool := anySuffix dateAt s

/-- The shared date-typedness test of both generators: the trimmed declared
type equals `Date`, or the column metadata matches the date type-attribute
pattern. -/
def isDateTyped (f : Field) : Bool :=
  (trim f.tsType == ("Date").data) || dateAttr (f.rawColumnMeta.getD [])

/-- The `isRequired` flag of `genDocDto` (line 168 of the source). -/
def isRequiredFlag (opts : GenOpts) (f : Field) : Bool :=
  !opts.forceOptional && !f.optional && !isGeneratedPrimary f

/-- Model of `getValidatorDecorators(field, required)`.  The `number` branch pushes
`@IsInt()` whether or not the column metadata names an int-like type (both
arms of the source's conditional are identical), so the metadata test is
dropped here. -/
def getValidatorDecorators (f : Field) (required : Bool) : List Str :=
  let t := f.tsType.filter (fun c => !wsChar c)
  (if containsToken (("Enum").data) t then
    [("@IsEnum(").data ++ trim f.tsType ++ (")").data]
   else if t == ("string").data then [("@IsString()").data]
   else if t == ("Date").data then [("@IsDate()").data]
   else if t == ("number").data then [("@IsInt()").data]
   else [])
  ++ (if !required then [("@IsOptional()").data] else [])
  ++ (if required && t == ("string").data then [("@IsNotEmpty()").data] else [])

/-- First-occurrence deduplication (JS `Set` insertion order). -/
def dedupAux : List Str → List Str → List Str
  | _, [] => []
  | seen, a :: as =>
    if seen.contains a then dedupAux seen as else a :: dedupAux (a :: seen) as

/-- First-occurrence deduplication of a list. -/
def dedupFirst (l : List Str) : List Str := dedupAux [] l

/-- Model of `extractEnumImports(source, fields)`. -/
def extractEnumImports (source : Str) (fields : List Field) : List Str :=
  let enumNames := dedupFirst (fields.filterMap (fun f =>
    let t := trim f.tsType
    if containsBothBound (("Enum").data) t || sfxB (("Enum").data) t then some t
    else none))
  let importLines := (splitLines source).filter (fun l => pfxB (("import").data) (trim l))
  dedupFirst (importLines.filter (fun l => enumNames.any (fun n => containsSub n l)))

/-- Concatenation of a list of lists (the per-field emission loops). -/
def catLists : List (List α) → List α
  | [] => []
  | l :: ls => l ++ catLists ls

/-- The import header of the request DTO. -/
def reqImportLines : List Str :=
  [("import \x7b IsString, IsOptional, IsInt, IsNotEmpty, IsDate, IsEnum \x7d from \x27class-validator\x27;").data,
   ("import \x7b Transform \x7d from \x27class-transformer\x27;").data,
   ("import \x7b PartialType \x7d from \x27@nestjs/mapped-types\x27;").data,
   ("import \x7b CommonDto \x7d from \x27src/common/dto/common.dto\x27;").data,
   ("import \x7b boolTransformer, dateTransformer \x7d from \x27src/common/util/transformer\x27;").data]

/-- The import header of the response DTO. -/
def resImportLines : List Str :=
  [("import \x7b Expose, Transform \x7d from \x27class-transformer\x27;").data,
   ("import \x7b boolTransformer, dateTransformer \x7d from \x27src/common/util/transformer\x27;").data]

/-- Storage-to-semantic boolean transform decorator line. -/
def boolToLine : Str := ("  @Transform((\x7b value \x7d) => boolTransformer.to(value))").data

/-- Storage-to-semantic date transform decorator line. -/
def dateToLine : Str := ("  @Transform((\x7b value \x7d) => dateTransformer.to(value))").data

/-- Semantic-to-display boolean transform decorator line. -/
def boolFromLine : Str := ("  @Transform((\x7b value \x7d) => boolTransformer.from(value))").data

/-- Semantic-to-display date transform decorator line. -/
def dateFromLine : Str := ("  @Transform((\x7b value \x7d) => dateTransformer.from(value))").data

/-- The field filter of `genDocDto`: relations and audit fields are dropped
(note that `opts` is not consulted). -/
def dtoFields (p : ParsedEntity) : List Field :=
  p.fields.filter (fun f => !isRelation f && !isAudit f)

/-- The per-field emission of `genDocDto`.  The validator call passes
`!isRequired` for the `required` parameter, exactly as the source does. -/
def reqFieldLines (opts : GenOpts) (f : Field) : List Str :=
  let isReq := isRequiredFlag opts f
  let t := trim f.tsType
  let isTiny := isTinyIntBoolean f
  (if isTiny then [boolToLine] else [])
  ++ (if isDateTyped f then [dateToLine] else [])
  ++ (getValidatorDecorators f (!isReq)).map (fun d => ("  ").data ++ d)
  ++ [("  ").data ++ f.name ++ (": ").data
        ++ (if isTiny then ("number").data else t) ++ (";").data,
      []]

/-- The lines of `genDocDto(source, parsed, opts)` before joining. -/
def genDocDtoLines (source : Str) (p : ParsedEntity) (opts : GenOpts) : List Str :=
  reqImportLines ++ extractEnumImports source p.fields
  ++ [[], ("export class ").data ++ p.baseName ++ ("Dto extends CommonDto \x7b").data]
  ++ catLists ((dtoFields p).map (reqFieldLines opts))
  ++ [("\x7d").data, [],
      ("export class ").data ++ p.baseName ++ ("ReqDto extends PartialType(").data
        ++ p.baseName ++ ("Dto) \x7b\x7d").data]

/-- Model of `genDocDto(source, parsed, opts)`. -/
def genDocDto (source : Str) (p : ParsedEntity) (opts : GenOpts) : Str :=
  List.intercalate ['\n'] (genDocDtoLines source p opts)

/-- Generic-array wrapper test `/^Array<(.+)>$/`; `.` matches neither
`\n` nor `\r`, and the greedy capture runs to the final `>`. -/
def innerGen (t : Str) : Str := (t.drop 6).dropLast

/-- Match of `/^Array<(.+)>$/` as a Boolean. -/
def isArrGen (t : Str) : Bool :=
  pfxB (("Array<").data) t && Nat.ble 8 t.length
  && (match t.getLast? with | some c => c == '>' | none => false)
  && (innerGen t).all (fun c => !(c == '\n') && !(c == '\r'))

/-- Fueled body of `toRelationResDtoType`; each step strips one wrapper,
so the input length is sufficient fuel. -/
def toRelAux : Nat → Str → Str
  | 0, t => trim t
  | fuel + 1, tsType =>
    let t := trim tsType
    if isArrGen t then toRelAux fuel (innerGen t) ++ ("[]").data
    else if sfxB (("[]").data) t then
      toRelAux fuel (trim (t.take (t.length - 2))) ++ ("[]").data
    else replaceSuffix (("Entity").data) (("ResDto").data) t

/-- Model of `toRelationResDtoType(tsType)` (the Type Resolver). -/
def toRelationResDtoType (tsType : Str) : Str := toRelAux tsType.length tsType

/-- The declared-type resolution of the response DTO, in the source's
conditional-chain order. -/
def respTypeStr (f : Field) : Str :=
  if isRelation f then toRelationResDtoType (trim f.tsType)
  else if isTinyIntBoolean f then ("boolean").data
  else if isAudit f && isDateTyped f then ("Date").data
  else if isDateTyped f then ("string").data
  else trim f.tsType

/-- The per-field emission of `genResponseDto`: transforms only for
non-relation fields, then the exposure marker, then the declaration. -/
def resFieldLines (f : Field) : List Str :=
  (if isRelation f then []
   else
     (if isTinyIntBoolean f then [boolFromLine] else [])
     ++ (if !isAudit f && isDateTyped f then [dateFromLine] else []))
  ++ [("  @Expose()").data,
      ("  ").data ++ f.name ++ (": ").data ++ respTypeStr f ++ (";").data,
      []]

/-- The lines of `genResponseDto(source, parsed)` before joining. -/
def genResponseDtoLines (source : Str) (p : ParsedEntity) : List Str :=
  resImportLines ++ extractEnumImports source p.fields
  ++ [[], ("export class ").data ++ p.baseName ++ ("ResDto \x7b").data]
  ++ catLists (p.fields.map resFieldLines)
  ++ [("\x7d").data]

/-- Model of `genResponseDto(source, parsed)`. -/
def genResponseDto (source : Str) (p : ParsedEntity) : Str :=
  List.intercalate ['\n'] (genResponseDtoLines source p)

/-! Concrete inputs used by the concrete theorems and witnesses. -/

/-- An entity with two plain fields; `title` is string-typed and, with
`forceOptional = false`, required. -/
def srcC1 : Str := ("export class DocEntity \x7b\nid: number;\ntitle: string;\n\x7d").data

/-- The `id` field of `srcC1`. -/
def fId : Field := ⟨("id").data, ("number").data, false, [], none⟩

/-- The `title` field of `srcC1`. -/
def fTitle : Field := ⟨("title").data, ("string").data, false, [], none⟩

/-- The parse of `srcC1`. -/
def peC1 : ParsedEntity := ⟨("DocEntity").data, ("Doc").data, [fId, fTitle]⟩

/-- An entity whose single property declaration carries the optional
marker `?`. -/
def srcC2 : Str := ("export class DocEntity \x7b\nnote?: string;\n\x7d").data

/-- A relation field (one-to-many decorator). -/
def fRel : Field :=
  ⟨("comments").data, ("CommentEntity[]").data, false,
   [("@OneToMany(() => CommentEntity, (c) => c.doc)").data], none⟩

/-- An entity holding only the relation field. -/
def pRel : ParsedEntity := ⟨("DocEntity").data, ("Doc").data, [fRel]⟩

/-- A generated-primary-key field. -/
def fGen : Field :=
  ⟨("id").data, ("number").data, false, [("@PrimaryGeneratedColumn()").data], none⟩

/-- Column metadata with `type: "tinyint"` and `width: 1`. -/
def metaTiny : Str := ("@Column(\x7b type: \x22tinyint\x22, width: 1 \x7d)").data

/-- A boolean-as-tinyint field. -/
def fTiny : Field := ⟨("flag").data, ("number").data, false, [metaTiny], some metaTiny⟩

/-- An entity holding only the tinyint field. -/
def pTiny : ParsedEntity := ⟨("DocEntity").data, ("Doc").data, [fTiny]⟩

/-- A source whose multi-line column-metadata block contains a decorator
line `@Foo()`, which the metadata scan swallows. -/
def srcC9 : Str :=
  ("export class DocEntity \x7b\n@Column(\x7b type: \x22int\x22,\n@Foo()\n\x7d)\ntitle: string;\n\x7d").data

/-- The decorator line of `srcC9` that is buffered. -/
def decoC9 : Str := ("@Column(\x7b type: \x22int\x22,").data

/-- The metadata text the scan of `srcC9` captures. -/
def metaC9 : Str := ("@Column(\x7b type: \x22int\x22,\n@Foo()\n\x7d)").data

/-- A source with class-level and field-level decorators above the first
property declaration, all column blocks single-line. -/
def srcW9 : Str :=
  ("@Entity()\nexport class DocEntity \x7b\n@PrimaryGeneratedColumn()\nid: number;\n\x7d").data

/-- Is a line harmless to the decorator buffer: either it is not a
brace-carrying `@Column(` line, or its parentheses already close on the
line itself (so the metadata scan consumes no further lines). -/
def singleLineColumn (l : Str) : Bool :=
  !(colMetaStart (trim l)) || Nat.ble (countChar '(' l) (countChar ')' l)

/-- A decorator-marker line: the trimmed text starts with `@`. -/
def isDecoLine (l : Str) : Bool := pfxB (("@").data) (trim l)

/-- The lines before the first property-declaration line. -/
def preProp (ls : List Str) : List Str :=
  ls.takeWhile (fun l => !(propMatch (trim l)).isSome)

/-- Concatenation of `n` plain array suffixes. -/
def arrSuffix : Nat → Str
  | 0 => []
  | n + 1 => arrSuffix n ++ ("[]").data

/-- Nesting of `n` generic `Array<...>` wrappers around a name. -/
def genWrap : Nat → Str → Str
  | 0, s => s
  | n + 1, s => ("Array<").data ++ genWrap n s ++ (">").data

/-- An `export class X {` header line. -/
def classLine (x : Str) : Str :=
  ("export class ").data ++ x ++ (" \x7b").data

/-- Source text with two exported classes, each declaring one property. -/
def src10 (a b : Str) : Str :=
  ("export class ").data ++ a
  ++ (" \x7b\nid: number;\n\x7d\nexport class ").data ++ b
  ++ (" \x7b\ntitle: string;\n\x7d").data

/-! Helper lemmas. -/

theorem mem_catLists {α : Type} {a : α} {l : List α} {L : List (List α)}
    (h1 : l ∈ L) (h2 : a ∈ l) : a ∈ catLists L := by
  induction L with
  | nil => cases h1
  | cons x xs ih =>
    rcases List.mem_cons.mp h1 with h | h
    · subst h
      exact List.mem_append.mpr (Or.inl h2)
    · exact List.mem_append.mpr (Or.inr (ih h))

theorem searchExportClass_none_iff (s : Str) :
    searchExportClass s = none ↔ ∀ i, matchExportClassAt (s.drop i) = none := by
  induction s with
  | nil =>
    simp only [searchExportClass, List.drop_nil, true_iff]
    intro i
    rfl
  | cons c rest ih =>
    cases h : matchExportClassAt (c :: rest) with
    | some w =>
      simp only [searchExportClass, h]
      refine iff_of_false (by simp) ?_
      intro hall
      have h0 := hall 0
      rw [List.drop_zero, h] at h0
      exact Option.noConfusion h0
    | none =>
      simp only [searchExportClass, h]
      rw [ih]
      constructor
      · intro hall i
        cases i with
        | zero => simpa using h
        | succ n => simpa using hall n
      · intro hall i
        have := hall (i + 1)
        simpa using this

theorem searchExportClass_some (s w : Str) (h : searchExportClass s = some w) :
    ∃ i, matchExportClassAt (s.drop i) = some w
      ∧ ∀ j, j < i → matchExportClassAt (s.drop j) = none := by
  induction s with
  | nil => cases h
  | cons c rest ih =>
    cases hm : matchExportClassAt (c :: rest) with
    | some w2 =>
      rw [searchExportClass, hm] at h
      cases h
      exact ⟨0, by simpa using hm, by intro j hj; cases hj⟩
    | none =>
      rw [searchExportClass, hm] at h
      obtain ⟨i, h1, h2⟩ := ih h
      refine ⟨i + 1, by simpa using h1, ?_⟩
      intro j hj
      cases j with
      | zero => simpa using hm
      | succ n => simpa using h2 n (Nat.lt_of_succ_lt_succ hj)

theorem pfxB_append_self : ∀ p r : Str, pfxB p (p ++ r) = true := by
  intro p r
  induction p with
  | nil => rfl
  | cons a as ih => simp [pfxB, ih]

theorem pfxB_ex (p s : Str) (h : pfxB p s = true) : ∃ r, s = p ++ r := by
  induction p generalizing s with
  | nil => exact ⟨s, rfl⟩
  | cons a as ih =>
    cases s with
    | nil => simp [pfxB] at h
    | cons b bs =>
      rw [pfxB, Bool.and_eq_true_iff] at h
      obtain ⟨hab, hrest⟩ := h
      obtain ⟨r, hr⟩ := ih bs hrest
      exact ⟨r, by rw [eq_of_beq hab, hr]; rfl⟩

theorem all_imp {p q : Char → Bool} (himp : ∀ c, p c = true → q c = true)
    {s : Str} (h : s.all p = true) : s.all q = true := by
  rw [List.all_eq_true] at h ⊢
  exact fun x hx => himp x (h x hx)

theorem nonws_of_word : ∀ c, wordChar c = true → wsChar c = false := by
  intro c h
  cases hc : wsChar c with
  | false => rfl
  | true =>
    rw [wsChar] at hc
    simp only [Bool.or_eq_true, beq_iff_eq] at hc
    rcases hc with ((((h1 | h1) | h1) | h1) | h1) | h1 <;>
      (subst h1; exact absurd h (by decide))

theorem trimL_of_all {s : Str} (h : s.all (fun c => !wsChar c) = true) :
    trimL s = s := by
  cases s with
  | nil => rfl
  | cons a l =>
    have ha : wsChar a = false := by
      have := (List.all_cons .. ▸ h)
      simp only [Bool.and_eq_true_iff, Bool.not_eq_true'] at this
      exact this.1
    simp [trimL, List.dropWhile_cons, ha]

theorem trimR_of_all {s : Str} (h : s.all (fun c => !wsChar c) = true) :
    trimR s = s := by
  have hrev : s.reverse.all (fun c => !wsChar c) = true := by
    rw [List.all_eq_true] at h ⊢
    intro x hx
    exact h x (List.mem_reverse.mp hx)
  rw [trimR]
  have hdw : s.reverse.dropWhile wsChar = s.reverse := by
    cases hs : s.reverse with
    | nil => rfl
    | cons a l =>
      have ha : wsChar a = false := by
        have hmem : a ∈ s.reverse := by rw [hs]; exact List.mem_cons_self a l
        simpa using List.all_eq_true.mp hrev a hmem
      simp [List.dropWhile_cons, ha]
  rw [hdw, List.reverse_reverse]

theorem trim_of_all {s : Str} (h : s.all (fun c => !wsChar c) = true) :
    trim s = s := by
  rw [trim, trimL_of_all h, trimR_of_all h]

theorem all_arrSuffix (p : Char → Bool) (h1 : p '[' = true) (h2 : p ']' = true) :
    ∀ n, (arrSuffix n).all p = true := by
  intro n
  induction n with
  | zero => rfl
  | succ m ih => simp [arrSuffix, List.all_append, ih, h1, h2]

theorem all_genWrap (p : Char → Bool) (hA : (("Array<").data).all p = true)
    (hG : p '>' = true) {s : Str} (hs : s.all p = true) :
    ∀ n, (genWrap n s).all p = true := by
  intro n
  induction n with
  | zero => exact hs
  | succ m ih =>
    rw [genWrap, List.all_append, List.all_append, hA, ih]
    simp [hG]

theorem word_nlcr (c : Char) (h : wordChar c = true) :
    (!(c == '\n') && !(c == '\r')) = true := by
  have hn := nonws_of_word c h
  rw [wsChar] at hn
  cases hcn : (c == '\n') with
  | true => rw [hcn] at hn; simp at hn
  | false =>
    cases hcr : (c == '\r') with
    | true => rw [hcr] at hn; simp at hn
    | false => simp [hcn, hcr]

theorem dropWhile_len_le (p : Char → Bool) : ∀ l : Str, (l.dropWhile p).length ≤ l.length := by
  intro l
  induction l with
  | nil => simp
  | cons a l ih =>
    rw [List.dropWhile_cons]
    split_ifs
    · exact le_trans ih (Nat.le_succ _)
    · exact Nat.le_refl _

theorem genWrap_len {s : Str} : ∀ m, s.length ≤ (genWrap m s).length := by
  intro m
  induction m with
  | zero => exact le_rfl
  | succ j ih =>
    simp only [genWrap, List.length_append]
    omega

theorem trimLen_le (s : Str) : (trim s).length ≤ s.length := by
  have h1 : (trimL s).length ≤ s.length := dropWhile_len_le _ _
  have h2 : (trimR (trimL s)).length ≤ (trimL s).length := by
    rw [trimR, List.length_reverse]
    calc ((trimL s).reverse.dropWhile wsChar).length
        ≤ (trimL s).reverse.length := dropWhile_len_le _ _
      _ = (trimL s).length := List.length_reverse _
  exact le_trans h2 h1

theorem toRelAux_fuelInv :
    ∀ k k' t, t.length ≤ k → t.length ≤ k' → toRelAux k t = toRelAux k' t := by
  intro k
  induction k using Nat.strong_induction_on with
  | _ k ih =>
    intro k' t hk hk'
    match k, k' with
    | 0, 0 => rfl
    | 0, kb + 1 =>
      have : t = [] := List.length_eq_zero.mp (Nat.le_zero.mp hk)
      subst this
      rfl
    | ka + 1, 0 =>
      have : t = [] := List.length_eq_zero.mp (Nat.le_zero.mp hk')
      subst this
      rfl
    | ka + 1, kb + 1 =>
      have htr : (trim t).length ≤ t.length := trimLen_le t
      simp only [toRelAux]
      split_ifs with h1 h2
      · have hlen : (innerGen (trim t)).length = (trim t).length - 7 := by
          rw [innerGen, List.length_dropLast, List.length_drop]
          omega
        refine congrArg (· ++ ("[]").data) ?_
        exact ih ka (Nat.lt_succ_self ka) kb (innerGen (trim t))
          (by omega) (by omega)
      · have hlen : (trim ((trim t).take ((trim t).length - 2))).length
            ≤ (trim t).length - 2 := by
          calc (trim ((trim t).take ((trim t).length - 2))).length
              ≤ ((trim t).take ((trim t).length - 2)).length := trimLen_le _
            _ ≤ (trim t).length - 2 := by rw [List.length_take]; omega
        refine congrArg (· ++ ("[]").data) ?_
        exact ih ka (Nat.lt_succ_self ka) kb _ (by omega) (by omega)
      · rfl

theorem toRel_base {s : Str} (hne : s ≠ []) (hw : s.all wordChar = true) :
    toRelationResDtoType s = replaceSuffix (("Entity").data) (("ResDto").data) s := by
  have hnws : s.all (fun c => !wsChar c) = true :=
    all_imp (fun c hc => by rw [nonws_of_word c hc]; rfl) hw
  cases hl : s.length with
  | zero => exact absurd (List.length_eq_zero.mp hl) hne
  | succ m =>
    rw [toRelationResDtoType, hl]
    simp only [toRelAux]
    rw [trim_of_all hnws]
    have harr : isArrGen s = false := by
      cases hp : pfxB (("Array<").data) s with
      | false => simp [isArrGen, hp]
      | true =>
        obtain ⟨r, hr⟩ := pfxB_ex _ _ hp
        have : wordChar '<' = true :=
          List.all_eq_true.mp hw '<'
            (by rw [hr]; exact List.mem_append.mpr (Or.inl (by decide)))
        exact absurd this (by decide)
    have hsfx : sfxB (("[]").data) s = false := by
      cases hp : sfxB (("[]").data) s with
      | false => rfl
      | true =>
        rw [sfxB] at hp
        obtain ⟨r, hr⟩ := pfxB_ex _ _ hp
        have hmem : ']' ∈ s := by
          rw [← List.mem_reverse, hr]
          exact List.mem_append.mpr (Or.inl (by decide))
        have : wordChar ']' = true := List.all_eq_true.mp hw ']' hmem
        exact absurd this (by decide)
    rw [harr, hsfx]
    simp

theorem c7_arr_aux {s : Str} (hne : s ≠ []) (hw : s.all wordChar = true) :
    ∀ n, toRelationResDtoType (s ++ arrSuffix n)
      = replaceSuffix (("Entity").data) (("ResDto").data) s ++ arrSuffix n := by
  have hnws : s.all (fun c => !wsChar c) = true :=
    all_imp (fun c hc => by rw [nonws_of_word c hc]; rfl) hw
  intro n
  induction n with
  | zero =>
    simpa [arrSuffix] using toRel_base hne hw
  | succ m ih =>
    have hnwst : (s ++ arrSuffix (m + 1)).all (fun c => !wsChar c) = true := by
      simp only [List.all_append, Bool.and_eq_true_iff]
      exact ⟨hnws, all_arrSuffix _ (by decide) (by decide) _⟩
    have hlen : (s ++ arrSuffix (m + 1)).length = (s ++ arrSuffix m).length + 2 := by
      simp only [arrSuffix, List.length_append,
        show ((("[]").data).length = 2) from rfl]
      omega
    cases hl : (s ++ arrSuffix (m + 1)).length with
    | zero => omega
    | succ k =>
      rw [toRelationResDtoType, hl]
      simp only [toRelAux]
      rw [trim_of_all hnwst]
      have harr : isArrGen (s ++ arrSuffix (m + 1)) = false := by
        cases hp : pfxB (("Array<").data) (s ++ arrSuffix (m + 1)) with
        | false => simp [isArrGen, hp]
        | true =>
          obtain ⟨r, hr⟩ := pfxB_ex _ _ hp
          have hmem : '<' ∈ s ++ arrSuffix (m + 1) := by
            rw [hr]; exact List.mem_append.mpr (Or.inl (by decide))
          rcases List.mem_append.mp hmem with hin | hin
          · exact absurd (List.all_eq_true.mp hw '<' hin) (by decide)
          · have := List.all_eq_true.mp
              (all_arrSuffix (fun c => !(c == '<')) (by decide) (by decide) (m + 1)) '<' hin
            simp at this
      have hshape : s ++ arrSuffix (m + 1) = (s ++ arrSuffix m) ++ ("[]").data := by
        rw [arrSuffix, List.append_assoc]
      have hsfx : sfxB (("[]").data) (s ++ arrSuffix (m + 1)) = true := by
        rw [sfxB, hshape, List.reverse_append]
        exact pfxB_append_self (("[]").data).reverse _
      rw [harr, hsfx, if_neg (show ¬(false = true) by simp), if_pos rfl]
      have htake : (s ++ arrSuffix (m + 1)).take ((s ++ arrSuffix (m + 1)).length - 2)
          = s ++ arrSuffix m := by
        rw [hshape]
        have hh : ((s ++ arrSuffix m) ++ ("[]").data).length - 2 = (s ++ arrSuffix m).length := by
          simp only [List.length_append, show ((("[]").data).length = 2) from rfl]
          omega
        rw [hh]
        exact List.take_left _ _
      rw [htake]
      have hnwsm : (s ++ arrSuffix m).all (fun c => !wsChar c) = true := by
        simp only [List.all_append, Bool.and_eq_true_iff]
        exact ⟨hnws, all_arrSuffix _ (by decide) (by decide) _⟩
      rw [trim_of_all hnwsm]
      have hk : (s ++ arrSuffix m).length ≤ k := by omega
      rw [toRelAux_fuelInv k (s ++ arrSuffix m).length (s ++ arrSuffix m) hk le_rfl]
      rw [← toRelationResDtoType, ih, arrSuffix, List.append_assoc]

theorem c7_gen_aux {s : Str} (hne : s ≠ []) (hw : s.all wordChar = true) :
    ∀ n, toRelationResDtoType (genWrap n s)
      = replaceSuffix (("Entity").data) (("ResDto").data) s ++ arrSuffix n := by
  have hnws : s.all (fun c => !wsChar c) = true :=
    all_imp (fun c hc => by rw [nonws_of_word c hc]; rfl) hw
  intro n
  induction n with
  | zero =>
    simpa [genWrap, arrSuffix] using toRel_base hne hw
  | succ m ih =>
    have hnwst : (genWrap (m + 1) s).all (fun c => !wsChar c) = true :=
      all_genWrap _ (by decide) (by decide) hnws (m + 1)
    have hlenw : 1 ≤ (genWrap m s).length :=
      le_trans (List.length_pos.mpr hne) (genWrap_len m)
    have hlen : (genWrap (m + 1) s).length = (genWrap m s).length + 7 := by
      simp only [genWrap, List.length_append,
        show ((("Array<").data).length = 6) from rfl,
        show (((">").data).length = 1) from rfl]
      omega
    cases hl : (genWrap (m + 1) s).length with
    | zero => omega
    | succ k =>
      rw [toRelationResDtoType, hl]
      simp only [toRelAux]
      rw [trim_of_all hnwst]
      have hshape : genWrap (m + 1) s = ("Array<").data ++ (genWrap m s ++ [('>' : Char)]) := by
        rw [genWrap]; rfl
      have harr : isArrGen (genWrap (m + 1) s) = true := by
        rw [isArrGen]
        have h1 : pfxB (("Array<").data) (genWrap (m + 1) s) = true := by
          rw [hshape]; exact pfxB_append_self _ _
        have h2 : Nat.ble 8 (genWrap (m + 1) s).length = true := by
          rw [Nat.ble_eq]; omega
        have h3 : (genWrap (m + 1) s).getLast? = some '>' := by
          rw [hshape, ← List.append_assoc, List.getLast?_concat]
        have h4 : (innerGen (genWrap (m + 1) s)).all
            (fun c => !(c == '\n') && !(c == '\r')) = true := by
          have hinner : innerGen (genWrap (m + 1) s) = genWrap m s := by
            rw [innerGen, hshape, List.drop_left' (by decide), List.dropLast_concat]
          rw [hinner]
          exact all_genWrap _ (by decide) (by decide) (all_imp word_nlcr hw) m
        rw [h1, h2, h3]
        simp [h4]
      rw [harr, if_pos rfl]
      have hinner : innerGen (genWrap (m + 1) s) = genWrap m s := by
        rw [innerGen, hshape, List.drop_left' (by decide), List.dropLast_concat]
      rw [hinner]
      have hk : (genWrap m s).length ≤ k := by omega
      rw [toRelAux_fuelInv k (genWrap m s).length (genWrap m s) hk le_rfl]
      rw [← toRelationResDtoType, ih, arrSuffix, List.append_assoc]

theorem propMatch_deco {t : Str} (h : pfxB (("@").data) t = true) :
    propMatch t = none := by
  obtain ⟨r, hr⟩ := pfxB_ex _ _ h
  subst hr
  rfl

theorem parseLoop_step_deco_plain (n : Nat) (l : Str) (tl buf : List Str)
    (pend : Option Str) (hdeco : pfxB (("@").data) (trim l) = true)
    (hcol : colMetaStart (trim l) = false) :
    parseLoop (n + 1) (l :: tl) buf pend = parseLoop n tl (buf ++ [trim l]) pend := by
  simp [parseLoop, hdeco, hcol]

theorem parseLoop_step_deco_col (n : Nat) (l : Str) (tl buf : List Str)
    (pend : Option Str) (hdeco : pfxB (("@").data) (trim l) = true)
    (hcol : colMetaStart (trim l) = true)
    (hle : (countChar '(' l : Int) - (countChar ')' l : Int) ≤ 0) :
    parseLoop (n + 1) (l :: tl) buf pend = parseLoop n tl (buf ++ [trim l]) (some l) := by
  simp [parseLoop, hdeco, hcol, hle]

theorem parseLoop_step_skip (n : Nat) (l : Str) (tl buf : List Str)
    (pend : Option Str) (hdeco : pfxB (("@").data) (trim l) = false)
    (hprop : propMatch (trim l) = none) :
    parseLoop (n + 1) (l :: tl) buf pend = parseLoop n tl buf pend := by
  simp [parseLoop, hdeco, hprop]

theorem parseLoop_step_prop (n : Nat) (l : Str) (tl buf : List Str)
    (pend : Option Str) (nm rawT m0 : Str)
    (hdeco : pfxB (("@").data) (trim l) = false)
    (hprop : propMatch (trim l) = some (nm, rawT, m0)) :
    parseLoop (n + 1) (l :: tl) buf pend =
      { name := nm
        tsType := trim rawT
        optional := endsWithQ m0
          || nullableHit ((pend.getD []) ++ '\n' :: List.intercalate ['\n'] buf)
        decorators := buf
        rawColumnMeta := pend } :: parseLoop n tl [] none := by
  simp [parseLoop, hdeco, hprop]

theorem parseLoop_first_decorators :
    ∀ (fuel : Nat) (ls buf : List Str) (pend : Option Str) (f : Field)
      (rest : List Field),
      (∀ l ∈ preProp ls, singleLineColumn l = true) →
      parseLoop fuel ls buf pend = f :: rest →
      f.decorators = buf ++ ((preProp ls).filter isDecoLine).map trim := by
  intro fuel
  induction fuel with
  | zero =>
    intro ls buf pend f rest _ h
    exact List.noConfusion h
  | succ n ih =>
    intro ls buf pend f rest hsl h
    cases ls with
    | nil => exact List.noConfusion h
    | cons l tl =>
      by_cases hdeco : pfxB (("@").data) (trim l) = true
      · have hprop : propMatch (trim l) = none := propMatch_deco hdeco
        have hpre : preProp (l :: tl) = l :: preProp tl := by
          rw [preProp, List.takeWhile_cons_of_pos (by simp [hprop])]
          rfl
        have hsll : singleLineColumn l = true := by
          refine hsl l ?_
          rw [hpre]
          exact List.mem_cons_self l _
        have hfilter :
            ((preProp (l :: tl)).filter isDecoLine).map trim
              = trim l :: ((preProp tl).filter isDecoLine).map trim := by
          rw [hpre, List.filter_cons_of_pos (by simpa [isDecoLine] using hdeco)]
          rfl
        have hsl2 : ∀ x ∈ preProp tl, singleLineColumn x = true := by
          intro x hx
          refine hsl x ?_
          rw [hpre]
          exact List.mem_cons_of_mem l hx
        by_cases hcol : colMetaStart (trim l) = true
        · have hle : (countChar '(' l : Int) - (countChar ')' l : Int) ≤ 0 := by
            rw [singleLineColumn, hcol] at hsll
            simp only [Bool.not_true, Bool.false_or] at hsll
            have := Nat.ble_eq.mp hsll
            omega
          rw [parseLoop_step_deco_col n l tl buf pend hdeco hcol hle] at h
          have := ih tl (buf ++ [trim l]) (some l) f rest hsl2 h
          rw [this, hfilter, List.append_assoc]
          rfl
        · have hcol2 : colMetaStart (trim l) = false := by
            simpa using hcol
          rw [parseLoop_step_deco_plain n l tl buf pend hdeco hcol2] at h
          have := ih tl (buf ++ [trim l]) pend f rest hsl2 h
          rw [this, hfilter, List.append_assoc]
          rfl
      · have hdeco2 : pfxB (("@").data) (trim l) = false := by
          simpa using hdeco
        cases hprop : propMatch (trim l) with
        | some r =>
          obtain ⟨nm, rawT, m0⟩ := r
          rw [parseLoop_step_prop n l tl buf pend nm rawT m0 hdeco2 hprop] at h
          have hpre : preProp (l :: tl) = [] := by
            rw [preProp, List.takeWhile_cons_of_neg (by simp [hprop])]
          injection h with h1 _
          rw [← h1, hpre]
          simp
        | none =>
          rw [parseLoop_step_skip n l tl buf pend hdeco2 hprop] at h
          have hpre : preProp (l :: tl) = l :: preProp tl := by
            rw [preProp, List.takeWhile_cons_of_pos (by simp [hprop])]
            rfl
          have hsl2 : ∀ x ∈ preProp tl, singleLineColumn x = true := by
            intro x hx
            refine hsl x ?_
            rw [hpre]
            exact List.mem_cons_of_mem l hx
          have := ih tl buf pend f rest hsl2 h
          rw [this, hpre, List.filter_cons_of_neg (by simp [isDecoLine, hdeco2])]

theorem stripPfx_append (p r : Str) : stripPfx p (p ++ r) = some r := by
  simp [stripPfx, pfxB_append_self, List.drop_left]

theorem getLast?_app_last {x y : Str} {c : Char} (h : y.getLast? = some c) :
    (x ++ y).getLast? = some c := by
  rw [List.getLast?_append, h]
  rfl

theorem trimL_of_head {s : Str} {c : Char} (hh : s.head? = some c)
    (hc : wsChar c = false) : trimL s = s := by
  cases s with
  | nil => cases hh
  | cons a t =>
    injection hh with h1
    subst h1
    rw [trimL, List.dropWhile_cons_of_neg (by simp [hc])]

theorem trimR_of_last {s : Str} {c : Char} (hl : s.getLast? = some c)
    (hc : wsChar c = false) : trimR s = s := by
  rw [trimR]
  have hrev : s.reverse.head? = some c := by rw [List.head?_reverse, hl]
  have hdw : s.reverse.dropWhile wsChar = s.reverse := by
    cases hs : s.reverse with
    | nil => rfl
    | cons a t =>
      rw [hs] at hrev
      injection hrev with h1
      subst h1
      rw [List.dropWhile_cons_of_neg (by simp [hc])]
  rw [hdw, List.reverse_reverse]

theorem trim_of_ends {s : Str} {c d : Char} (hh : s.head? = some c)
    (hc : wsChar c = false) (hl : s.getLast? = some d) (hd : wsChar d = false) :
    trim s = s := by
  rw [trim, trimL_of_head hh hc, trimR_of_last hl hd]

theorem dropTrailCR_of_last {s : Str} {c : Char} (hl : s.getLast? = some c)
    (hc : (c == '\r') = false) : dropTrailCR s = s := by
  simp [dropTrailCR, hl, hc]

theorem classLine_head (x : Str) : (classLine x).head? = some 'e' := rfl

theorem classLine_last (x : Str) : (classLine x).getLast? = some lbrace :=
  getLast?_app_last (by decide)

theorem classLine_trim (x : Str) : trim (classLine x) = classLine x :=
  trim_of_ends (classLine_head x) (by decide) (classLine_last x) (by decide)

theorem classLine_deco (x : Str) : pfxB (("@").data) (classLine x) = false := rfl

theorem classLine_prop (x : Str) : propMatch (classLine x) = none := rfl

theorem classLine_skip (n : Nat) (x : Str) (tl buf : List Str) (pend : Option Str) :
    parseLoop (n + 1) (classLine x :: tl) buf pend = parseLoop n tl buf pend := by
  refine parseLoop_step_skip n _ tl buf pend ?_ ?_
  · rw [classLine_trim]
    exact classLine_deco x
  · rw [classLine_trim]
    exact classLine_prop x

theorem word_not_nl (c : Char) (h : wordChar c = true) : (!(c == '\n')) = true := by
  have := word_nlcr c h
  rw [Bool.and_eq_true_iff] at this
  exact this.1

theorem splitNL_cons_nl (y : Str) : splitNL ('\n' :: y) = [] :: splitNL y := by
  rw [splitNL, if_pos rfl]

theorem splitNL_append_nonl :
    ∀ (x : Str), x.all (fun c => !(c == '\n')) = true →
      ∀ {y l : Str} {ls : List Str}, splitNL y = l :: ls →
        splitNL (x ++ y) = (x ++ l) :: ls := by
  intro x
  induction x with
  | nil =>
    intro _ y l ls h
    simpa using h
  | cons c cs ih =>
    intro hx y l ls h
    have hc : (c == '\n') = false := by
      simpa using List.all_eq_true.mp hx c (List.mem_cons_self c cs)
    have hcs : cs.all (fun c => !(c == '\n')) = true := by
      rw [List.all_eq_true] at hx ⊢
      exact fun a ha => hx a (List.mem_cons_of_mem c ha)
    have hcne : ¬ c = '\n' := by
      intro hEq
      rw [hEq] at hc
      simp at hc
    rw [List.cons_append, splitNL, if_neg hcne, ih hcs h]
    rfl

theorem searchExportClass_of_matchAt {s w : Str} (hs : s ≠ [])
    (h : matchExportClassAt s = some w) : searchExportClass s = some w := by
  cases s with
  | nil => exact absurd rfl hs
  | cons c rest => simp [searchExportClass, h]

theorem matchECA_classIdent (a r : Str) (hne : a ≠ []) (hw : a.all wordChar = true) :
    matchExportClassAt (("export class ").data ++ (a ++ (' ' :: r))) = some a := by
  obtain ⟨c, cs, rfl⟩ : ∃ c cs, a = c :: cs := by
    cases a with
    | nil => exact absurd rfl hne
    | cons c cs => exact ⟨c, cs, rfl⟩
  have hcw : wordChar c = true := by
    simpa using List.all_eq_true.mp hw c (List.mem_cons_self c cs)
  have hcsw : ∀ x ∈ cs, wordChar x := by
    intro x hx
    simpa using List.all_eq_true.mp hw x (List.mem_cons_of_mem c hx)
  have hcore : matchExportClassAt (("export class ").data ++ (c :: cs ++ (' ' :: r)))
      = (if (((c :: cs ++ (' ' :: r)).dropWhile wsChar).takeWhile wordChar).length = 0
         then none
         else some (((c :: cs ++ (' ' :: r)).dropWhile wsChar).takeWhile wordChar)) := rfl
  rw [hcore]
  have hdrop : (c :: cs ++ (' ' :: r)).dropWhile wsChar = c :: (cs ++ (' ' :: r)) := by
    rw [List.cons_append, List.dropWhile_cons_of_neg (by simp [nonws_of_word c hcw])]
  have htake : (c :: (cs ++ (' ' :: r))).takeWhile wordChar = c :: cs := by
    rw [List.takeWhile_cons_of_pos (by simp [hcw]), List.takeWhile_append_of_pos hcsw,
        List.takeWhile_cons_of_neg (by decide), List.append_nil]
  rw [hdrop, htake, if_neg (by simp)]

theorem classLine_all_not_nl {x : Str} (hx : x.all wordChar = true) :
    (classLine x).all (fun c => !(c == '\n')) = true := by
  rw [classLine]
  simp only [List.all_append, Bool.and_eq_true_iff]
  exact ⟨⟨by decide, all_imp word_not_nl hx⟩, by decide⟩

theorem splitLines_src10 (a b : Str) (ha : a.all wordChar = true)
    (hb : b.all wordChar = true) :
    splitLines (src10 a b) =
      [classLine a, ("id: number;").data, ("\x7d").data,
       classLine b, ("title: string;").data, ("\x7d").data] := by
  have hshape : src10 a b =
      classLine a ++ '\n'
        :: (("id: number;").data ++ '\n'
        :: (("\x7d").data ++ '\n'
        :: (classLine b ++ '\n'
        :: (("title: string;").data ++ '\n'
        :: ("\x7d").data)))) := by
    rw [src10, classLine, classLine]
    simp only [List.append_assoc]
    rfl
  have h6 : splitNL (("\x7d").data) = [("\x7d").data] := rfl
  have h5 : splitNL (("title: string;").data ++ '\n' :: ("\x7d").data)
      = [("title: string;").data, ("\x7d").data] := by
    have := splitNL_append_nonl (("title: string;").data) (by decide)
      (y := '\n' :: ("\x7d").data) (by rw [splitNL_cons_nl, h6])
    simpa using this
  have h4 : splitNL (classLine b ++ '\n'
      :: (("title: string;").data ++ '\n' :: ("\x7d").data))
      = [classLine b, ("title: string;").data, ("\x7d").data] := by
    have := splitNL_append_nonl (classLine b) (classLine_all_not_nl hb)
      (y := '\n' :: (("title: string;").data ++ '\n' :: ("\x7d").data))
      (by rw [splitNL_cons_nl, h5])
    simpa using this
  have h3 : splitNL (("\x7d").data ++ '\n'
      :: (classLine b ++ '\n' :: (("title: string;").data ++ '\n' :: ("\x7d").data)))
      = [("\x7d").data, classLine b, ("title: string;").data, ("\x7d").data] := by
    have := splitNL_append_nonl (("\x7d").data) (by decide)
      (y := '\n' :: (classLine b ++ '\n'
        :: (("title: string;").data ++ '\n' :: ("\x7d").data)))
      (by rw [splitNL_cons_nl, h4])
    simpa using this
  have h2 : splitNL (("id: number;").data ++ '\n'
      :: (("\x7d").data ++ '\n' :: (classLine b ++ '\n'
        :: (("title: string;").data ++ '\n' :: ("\x7d").data))))
      = [("id: number;").data, ("\x7d").data, classLine b,
         ("title: string;").data, ("\x7d").data] := by
    have := splitNL_append_nonl (("id: number;").data) (by decide)
      (y := '\n' :: (("\x7d").data ++ '\n' :: (classLine b ++ '\n'
        :: (("title: string;").data ++ '\n' :: ("\x7d").data))))
      (by rw [splitNL_cons_nl, h3])
    simpa using this
  have h1 : splitNL (src10 a b)
      = [classLine a, ("id: number;").data, ("\x7d").data, classLine b,
         ("title: string;").data, ("\x7d").data] := by
    rw [hshape]
    have := splitNL_append_nonl (classLine a) (classLine_all_not_nl ha)
      (y := '\n' :: (("id: number;").data ++ '\n'
        :: (("\x7d").data ++ '\n' :: (classLine b ++ '\n'
        :: (("title: string;").data ++ '\n' :: ("\x7d").data)))))
      (by rw [splitNL_cons_nl, h2])
    simpa using this
  have hA : dropTrailCR (("id: number;").data) = ("id: number;").data := by decide
  have hB : dropTrailCR (("\x7d").data) = ("\x7d").data := by decide
  have hC : dropTrailCR (("title: string;").data) = ("title: string;").data := by decide
  rw [splitLines, h1]
  simp only [mapButLast]
  rw [dropTrailCR_of_last (classLine_last a) (by decide),
      dropTrailCR_of_last (classLine_last b) (by decide), hA, hB, hC]

theorem search_src10 (a b : Str) (hne : a ≠ []) (hw : a.all wordChar = true) :
    searchExportClass (src10 a b) = some a := by
  have hsh : src10 a b =
      ("export class ").data
        ++ (a ++ (' ' :: (("\x7b\nid: number;\n\x7d\nexport class ").data
          ++ (b ++ (" \x7b\ntitle: string;\n\x7d").data)))) := by
    rw [src10]
    simp only [List.append_assoc]
    rfl
  rw [hsh]
  refine searchExportClass_of_matchAt ?_ (matchECA_classIdent a _ hne hw)
  intro hcontra
  have := congrArg List.length hcontra
  simp [List.length_append] at this

/-! Claim theorems. -/

/-- Claim C1 (code bug): in the request DTO generator the validator call
passes the negation of the required flag, so for the required string field
`title` of `srcC1` (with `forceOptional = false`) the output carries
`@IsOptional()` and no `@IsNotEmpty()` — the opposite of the claim. -/
theorem c1_validator_inversion :
    parseEntity srcC1 = some peC1
    ∧ isRequiredFlag ⟨false, true⟩ fTitle = true
    ∧ fTitle ∈ dtoFields peC1
    ∧ ("  @IsOptional()").data ∈ reqFieldLines ⟨false, true⟩ fTitle
    ∧ ("  @IsNotEmpty()").data ∉ reqFieldLines ⟨false, true⟩ fTitle
    ∧ ("  @IsNotEmpty()").data ∉ genDocDtoLines srcC1 peC1 ⟨false, true⟩ := by
  decide

/-- Claim C2 (code bug): the optional-marker disjunct tests `/\?$/` against
the full property match, which always ends in `;`, so a declaration
`note?: string;` still yields `optional = false`. -/
theorem c2_optional_marker_dead :
    parseEntity srcC2 =
      some ⟨("DocEntity").data, ("Doc").data,
            [⟨("note").data, ("string").data, false, [], none⟩]⟩
    ∧ ("note?: string;").data ∈ (splitLines srcC2).map trim
    ∧ (propMatch (("note?: string;").data)).map (fun r => endsWithQ r.2.2) = some false := by
  decide

/-- Claim C3: `parseEntity` is absent exactly when no position of the text
matches the exported-class pattern, and on success the class name is the
leftmost capture and the base name strips one trailing `Entity`. -/
theorem c3_parse_failure :
    ∀ src : Str,
      (parseEntity src = none ↔ ∀ i, matchExportClassAt (src.drop i) = none)
      ∧ (∀ pe, parseEntity src = some pe →
          pe.baseName = replaceSuffix (("Entity").data) [] pe.className
          ∧ ∃ i, matchExportClassAt (src.drop i) = some pe.className
              ∧ ∀ j, j < i → matchExportClassAt (src.drop j) = none) := by
  intro src
  constructor
  · rw [← searchExportClass_none_iff]
    cases h : searchExportClass src <;> simp [parseEntity, h]
  · intro pe hpe
    cases h : searchExportClass src with
    | none => simp [parseEntity, h] at hpe
    | some w =>
      rw [parseEntity, h] at hpe
      cases hpe
      exact ⟨rfl, searchExportClass_some src w h⟩

/-- Witness for C3 at a concrete source containing a declaration. -/
theorem c3_parse_failure_witness :
    (("Doc").data = replaceSuffix (("Entity").data) [] (("DocEntity").data))
    ∧ ∃ i, matchExportClassAt (srcC1.drop i) = some (("DocEntity").data)
        ∧ ∀ j, j < i → matchExportClassAt (srcC1.drop j) = none :=
  (c3_parse_failure srcC1).2 peC1 (by decide)

/-- Claim C4: relation and audit fields are excluded from the request DTO
field list, and the generator's output is invariant under `stripAudit`. -/
theorem c4_audit_relation_excluded :
    (∀ (p : ParsedEntity) (f : Field),
      f ∈ p.fields → (isRelation f || isAudit f) = true → f ∉ dtoFields p)
    ∧ (∀ (source : Str) (p : ParsedEntity) (b s1 s2 : Bool),
        genDocDtoLines source p ⟨b, s1⟩ = genDocDtoLines source p ⟨b, s2⟩) := by
  constructor
  · intro p f _ hflag hmem
    have hkeep := (List.mem_filter.mp hmem).2
    rcases Bool.or_eq_true_iff.mp hflag with h | h <;> simp [h] at hkeep
  · intro source p b s1 s2
    rfl

/-- Witness for C4 at a concrete relation field. -/
theorem c4_audit_relation_excluded_witness :
    fRel ∉ dtoFields pRel
    ∧ genDocDtoLines [] pRel ⟨false, false⟩ = genDocDtoLines [] pRel ⟨false, true⟩ :=
  ⟨c4_audit_relation_excluded.1 pRel fRel (by decide) (by decide),
   c4_audit_relation_excluded.2 [] pRel false false true⟩

/-- Claim C5: the required flag of the request generator is the stated
conjunction, so a generated-primary field is never required. -/
theorem c5_required_flag :
    (∀ (opts : GenOpts) (f : Field),
      isRequiredFlag opts f = true ↔
        (opts.forceOptional = false ∧ f.optional = false ∧ isGeneratedPrimary f = false))
    ∧ (∀ (opts : GenOpts) (f : Field),
        isGeneratedPrimary f = true → isRequiredFlag opts f = false) := by
  constructor
  · intro opts f
    simp [isRequiredFlag, and_assoc]
  · intro opts f h
    simp [isRequiredFlag, h]

/-- Witness for C5 at a concrete generated-primary field. -/
theorem c5_required_flag_witness : isRequiredFlag ⟨false, true⟩ fGen = false :=
  c5_required_flag.2 ⟨false, true⟩ fGen (by decide)

/-- Claim C6: every field of the entity appears in the response DTO with the
exposure marker; a relation field gets no transform lines; and the declared
type follows the stated priority order. -/
theorem c6_response_emission :
    ∀ (source : Str) (p : ParsedEntity) (f : Field), f ∈ p.fields →
      (("  @Expose()").data ∈ genResponseDtoLines source p
       ∧ (("  ").data ++ f.name ++ (": ").data ++ respTypeStr f ++ (";").data)
           ∈ genResponseDtoLines source p)
      ∧ (isRelation f = true →
          resFieldLines f =
            [("  @Expose()").data,
             ("  ").data ++ f.name ++ (": ").data ++ respTypeStr f ++ (";").data, []])
      ∧ (isRelation f = true → respTypeStr f = toRelationResDtoType (trim f.tsType))
      ∧ (isRelation f = false → isTinyIntBoolean f = true →
          respTypeStr f = ("boolean").data)
      ∧ (isRelation f = false → isTinyIntBoolean f = false → isAudit f = true →
          isDateTyped f = true → respTypeStr f = ("Date").data)
      ∧ (isRelation f = false → isTinyIntBoolean f = false → isAudit f = false →
          isDateTyped f = true → respTypeStr f = ("string").data)
      ∧ (isRelation f = false → isTinyIntBoolean f = false → isDateTyped f = false →
          respTypeStr f = trim f.tsType) := by
  intro source p f hf
  have hexp : ("  @Expose()").data ∈ resFieldLines f := by
    simp [resFieldLines]
  have hdecl :
      (("  ").data ++ f.name ++ (": ").data ++ respTypeStr f ++ (";").data)
        ∈ resFieldLines f := by
    simp [resFieldLines, List.append_assoc]
  have hfl : resFieldLines f ∈ p.fields.map resFieldLines := List.mem_map_of_mem _ hf
  refine ⟨⟨?_, ?_⟩, ?_, ?_, ?_, ?_, ?_, ?_⟩
  · exact List.mem_append.mpr (Or.inl (List.mem_append.mpr
      (Or.inr (mem_catLists hfl hexp))))
  · exact List.mem_append.mpr (Or.inl (List.mem_append.mpr
      (Or.inr (mem_catLists hfl hdecl))))
  · intro h
    simp [resFieldLines, h]
  · intro h
    simp [respTypeStr, h]
  · intro h1 h2
    simp [respTypeStr, h1, h2]
  · intro h1 h2 h3 h4
    simp [respTypeStr, h1, h2, h3, h4]
  · intro h1 h2 h3 h4
    simp [respTypeStr, h1, h2, h3, h4]
  · intro h1 h2 h3
    simp [respTypeStr, h1, h2, h3]

/-- Witness for C6 at the concrete relation field. -/
theorem c6_response_emission_witness :
    (("  @Expose()").data ∈ genResponseDtoLines [] pRel
     ∧ (("  ").data ++ fRel.name ++ (": ").data ++ respTypeStr fRel ++ (";").data)
         ∈ genResponseDtoLines [] pRel)
    ∧ resFieldLines fRel =
        [("  @Expose()").data,
         ("  ").data ++ fRel.name ++ (": ").data ++ respTypeStr fRel ++ (";").data, []] := by
  have h := c6_response_emission [] pRel fRel (by decide)
  exact ⟨h.1, h.2.1 (by decide)⟩

/-- Claim C7: the three example mappings of the Type Resolver hold, and in
general any depth of single-kind array wrapping (plain `[]` suffixes or
nested `Array<...>`) around a word-character name ending in `Entity` maps to
the suffix-replaced name with the same number of plain array suffixes, while
a name not ending in `Entity` is returned unchanged. -/
theorem c7_type_resolver :
    (toRelationResDtoType (("DocEntity").data) = ("DocResDto").data
     ∧ toRelationResDtoType (("DocEntity[]").data) = ("DocResDto[]").data
     ∧ toRelationResDtoType (("Array<DocEntity>").data) = ("DocResDto[]").data)
    ∧ (∀ (s : Str) (n : Nat), s ≠ [] → s.all wordChar = true →
        sfxB (("Entity").data) s = true →
          toRelationResDtoType (s ++ arrSuffix n)
            = replaceSuffix (("Entity").data) (("ResDto").data) s ++ arrSuffix n
          ∧ toRelationResDtoType (genWrap n s)
            = replaceSuffix (("Entity").data) (("ResDto").data) s ++ arrSuffix n)
    ∧ (∀ s : Str, s ≠ [] → s.all wordChar = true →
        sfxB (("Entity").data) s = false → toRelationResDtoType s = s) := by
  refine ⟨by decide, ?_, ?_⟩
  · intro s n hne hw _
    exact ⟨c7_arr_aux hne hw n, c7_gen_aux hne hw n⟩
  · intro s hne hw hsfx
    rw [toRel_base hne hw, replaceSuffix, hsfx]
    simp

/-- Witness for C7 at depth two around `DocEntity`, and at the
suffix-free name `Doc`. -/
theorem c7_type_resolver_witness :
    (toRelationResDtoType ((("DocEntity").data) ++ arrSuffix 2)
       = replaceSuffix (("Entity").data) (("ResDto").data) (("DocEntity").data) ++ arrSuffix 2
     ∧ toRelationResDtoType (genWrap 2 (("DocEntity").data))
       = replaceSuffix (("Entity").data) (("ResDto").data) (("DocEntity").data) ++ arrSuffix 2)
    ∧ toRelationResDtoType (("Doc").data) = ("Doc").data := by
  refine ⟨c7_type_resolver.2.1 (("DocEntity").data) 2 ?_ ?_ ?_, ?_⟩
  · decide
  · decide
  · decide
  · exact c7_type_resolver.2.2 (("Doc").data) (by decide) (by decide) (by decide)

/-- Claim C9 counterexample: in `srcC9` the decorator-marker line `@Foo()`
occurs before the first property-declaration line, yet the first emitted
field's decorators list is only the `@Column(` line — the `@Foo()` line was
swallowed by the multi-line column-metadata scan. -/
theorem c9_decorator_attach_cex :
    parseEntity srcC9 =
      some ⟨("DocEntity").data, ("Doc").data,
            [⟨("title").data, ("string").data, false, [decoC9], some metaC9⟩]⟩
    ∧ ("@Foo()").data ∈ preProp (splitLines srcC9)
    ∧ isDecoLine (("@Foo()").data) = true
    ∧ ("@Foo()").data ∉ [decoC9] := by
  decide

/-- Claim C9 (amended): when every column-decorator line before the first
property-declaration line closes its parentheses on its own line, all
decorator-marker lines before the first property-declaration line are
attached, in order (trimmed), to the decorators of the first emitted field. -/
theorem c9_decorator_attach_amended :
    ∀ (src : Str) (pe : ParsedEntity) (f : Field) (rest : List Field),
      (∀ l ∈ preProp (splitLines src), singleLineColumn l = true) →
      parseEntity src = some pe →
      pe.fields = f :: rest →
      f.decorators = ((preProp (splitLines src)).filter isDecoLine).map trim := by
  intro src pe f rest hsl hpe hfields
  cases hsearch : searchExportClass src with
  | none => rw [parseEntity, hsearch] at hpe; cases hpe
  | some w =>
    rw [parseEntity, hsearch] at hpe
    cases hpe
    have := parseLoop_first_decorators (splitLines src).length (splitLines src)
      [] none f rest hsl hfields
    simpa using this

/-- Witness for C9 (amended) at a source with a class-level decorator and a
field decorator above the first declaration. -/
theorem c9_decorator_attach_amended_witness :
    (⟨("id").data, ("number").data, false,
      [("@Entity()").data, ("@PrimaryGeneratedColumn()").data], none⟩ : Field).decorators
      = ((preProp (splitLines srcW9)).filter isDecoLine).map trim :=
  c9_decorator_attach_amended srcW9
    ⟨("DocEntity").data, ("Doc").data,
     [⟨("id").data, ("number").data, false,
       [("@Entity()").data, ("@PrimaryGeneratedColumn()").data], none⟩]⟩
    ⟨("id").data, ("number").data, false,
     [("@Entity()").data, ("@PrimaryGeneratedColumn()").data], none⟩
    [] (by decide) (by decide) (by decide)

/-- Claim C8: `isTinyIntBoolean` requires both metadata attributes, and a
tinyint-boolean field is emitted in the request DTO as `number` with the
storage-to-semantic boolean transform, and in the response DTO as `boolean`
with the inverse transform. -/
theorem c8_tinyint_boolean :
    ∀ f : Field, isTinyIntBoolean f = true →
      (tinyTypeAttr (f.rawColumnMeta.getD []) = true
       ∧ widthOneAttr (f.rawColumnMeta.getD []) = true)
      ∧ (∀ (source : Str) (p : ParsedEntity) (opts : GenOpts),
          f ∈ p.fields → isRelation f = false → isAudit f = false →
            boolToLine ∈ genDocDtoLines source p opts
            ∧ (("  ").data ++ f.name ++ (": number;").data)
                ∈ genDocDtoLines source p opts)
      ∧ (∀ (source : Str) (p : ParsedEntity),
          f ∈ p.fields → isRelation f = false →
            boolFromLine ∈ genResponseDtoLines source p
            ∧ (("  ").data ++ f.name ++ (": boolean;").data)
                ∈ genResponseDtoLines source p) := by
  intro f htiny
  refine ⟨?_, ?_, ?_⟩
  · have h1 := htiny
    rw [isTinyIntBoolean] at h1
    exact ⟨(Bool.and_eq_true_iff.mp (Bool.and_eq_true_iff.mp h1).1).2,
           (Bool.and_eq_true_iff.mp h1).2⟩
  · intro source p opts hf hrel haud
    have hdto : f ∈ dtoFields p :=
      List.mem_filter.mpr ⟨hf, by simp [hrel, haud]⟩
    have hfl : reqFieldLines opts f ∈ (dtoFields p).map (reqFieldLines opts) :=
      List.mem_map_of_mem _ hdto
    constructor
    · have hmem : boolToLine ∈ reqFieldLines opts f := by
        simp [reqFieldLines, htiny]
      exact List.mem_append.mpr (Or.inl (List.mem_append.mpr
        (Or.inr (mem_catLists hfl hmem))))
    · have hmem : (("  ").data ++ f.name ++ (": number;").data)
          ∈ reqFieldLines opts f := by
        simp [reqFieldLines, htiny, List.append_assoc]
      exact List.mem_append.mpr (Or.inl (List.mem_append.mpr
        (Or.inr (mem_catLists hfl hmem))))
  · intro source p hf hrel
    have hfl : resFieldLines f ∈ p.fields.map resFieldLines :=
      List.mem_map_of_mem _ hf
    constructor
    · have hmem : boolFromLine ∈ resFieldLines f := by
        simp [resFieldLines, hrel, htiny]
      exact List.mem_append.mpr (Or.inl (List.mem_append.mpr
        (Or.inr (mem_catLists hfl hmem))))
    · have hmem : (("  ").data ++ f.name ++ (": boolean;").data)
          ∈ resFieldLines f := by
        simp [resFieldLines, respTypeStr, hrel, htiny, List.append_assoc]
      exact List.mem_append.mpr (Or.inl (List.mem_append.mpr
        (Or.inr (mem_catLists hfl hmem))))

/-- Claim C10: for a text holding two exported class declarations, the class
name (and hence the base name) comes from the first declaration, while the
property declarations of both classes are merged, in textual order, into the
single returned entity. -/
theorem c10_multi_class_merge :
    ∀ a b : Str, a ≠ [] → a.all wordChar = true → b ≠ [] → b.all wordChar = true →
      parseEntity (src10 a b) =
        some ⟨a, replaceSuffix (("Entity").data) [] a, [fId, fTitle]⟩ := by
  intro a b hna hwa _ hwb
  have hfields :
      parseLoop (splitLines (src10 a b)).length (splitLines (src10 a b)) [] none
        = [fId, fTitle] := by
    rw [splitLines_src10 a b hwa hwb]
    have e1 : parseLoop 6
        [classLine a, ("id: number;").data, ("\x7d").data, classLine b,
         ("title: string;").data, ("\x7d").data] [] none
        = parseLoop 5
        [("id: number;").data, ("\x7d").data, classLine b,
         ("title: string;").data, ("\x7d").data] [] none :=
      classLine_skip 5 a _ [] none
    have e2 : parseLoop 5
        [("id: number;").data, ("\x7d").data, classLine b,
         ("title: string;").data, ("\x7d").data] [] none
        = fId :: parseLoop 4
        [("\x7d").data, classLine b, ("title: string;").data, ("\x7d").data] [] none := by
      rw [parseLoop_step_prop 4 (("id: number;").data) _ [] none
        (("id").data) (("number").data) (("id: number;").data) (by decide) (by decide)]
      rfl
    have e3 : parseLoop 4
        [("\x7d").data, classLine b, ("title: string;").data, ("\x7d").data] [] none
        = parseLoop 3
        [classLine b, ("title: string;").data, ("\x7d").data] [] none :=
      parseLoop_step_skip 3 _ _ [] none (by decide) (by decide)
    have e4 : parseLoop 3
        [classLine b, ("title: string;").data, ("\x7d").data] [] none
        = parseLoop 2 [("title: string;").data, ("\x7d").data] [] none :=
      classLine_skip 2 b _ [] none
    have e5 : parseLoop 2 [("title: string;").data, ("\x7d").data] [] none
        = fTitle :: parseLoop 1 [("\x7d").data] [] none := by
      rw [parseLoop_step_prop 1 (("title: string;").data) _ [] none
        (("title").data) (("string").data) (("title: string;").data)
        (by decide) (by decide)]
      rfl
    have e6 : parseLoop 1 [("\x7d").data] [] none = parseLoop 0 [] [] none :=
      parseLoop_step_skip 0 _ _ [] none (by decide) (by decide)
    rw [show ([classLine a, ("id: number;").data, ("\x7d").data, classLine b,
      ("title: string;").data, ("\x7d").data] : List Str).length = 6 from rfl]
    rw [e1, e2, e3, e4, e5, e6]
    rfl
  rw [parseEntity, search_src10 a b hna hwa]
  simp only [hfields]

/-- Witness for C10 at the concrete class names `DocEntity` and
`CommentEntity`. -/
theorem c10_multi_class_merge_witness :
    parseEntity (src10 (("DocEntity").data) (("CommentEntity").data)) =
      some ⟨("DocEntity").data,
            replaceSuffix (("Entity").data) [] (("DocEntity").data), [fId, fTitle]⟩ :=
  c10_multi_class_merge (("DocEntity").data) (("CommentEntity").data)
    (by decide) (by decide) (by decide) (by decide)

/-- Witness for C8 at the concrete tinyint field. -/
theorem c8_tinyint_boolean_witness :
    (tinyTypeAttr (fTiny.rawColumnMeta.getD []) = true
     ∧ widthOneAttr (fTiny.rawColumnMeta.getD []) = true)
    ∧ (boolToLine ∈ genDocDtoLines [] pTiny ⟨true, true⟩
       ∧ (("  ").data ++ fTiny.name ++ (": number;").data)
           ∈ genDocDtoLines [] pTiny ⟨true, true⟩)
    ∧ (boolFromLine ∈ genResponseDtoLines [] pTiny
       ∧ (("  ").data ++ fTiny.name ++ (": boolean;").data)
           ∈ genResponseDtoLines [] pTiny) := by
  have h := c8_tinyint_boolean fTiny (by decide)
  exact ⟨h.1,
         h.2.1 [] pTiny ⟨true, true⟩ (by decide) (by decide) (by decide),
         h.2.2 [] pTiny (by decide) (by decide)⟩

end EntityToDto
